import Mathlib

/-!
Verification of the snapshot-diff-and-changelog-merge engine of
`track_followers.py`.

Documents are modelled as lists of characters (`List Char`), follower
identifiers as `String`, follower sets as `Finset String`.  The changelog
file state is `Option (List Char)` (`none` = the file does not exist).
-/

namespace TrackFollowers

/-- The level-3 heading marker matched by the pattern `^### ` (multiline). -/
def h3marker : List Char := ['#', '#', '#', ' ']

/-- Heading line of the gained sub-block. -/
def newFollowersHeader : List Char := "#### New Followers".toList

/-- Heading line of the removed sub-block. -/
def removedFollowersHeader : List Char := "#### Removed Followers".toList

/-- The preamble written when the changelog file does not exist yet
(`update_changelog`, else-branch: title line, description, blank separator). -/
def headerText : List Char :=
  "# Follower Changelog\n\nThis file tracks changes in GitHub followers over time.\n\n".toList

/-- One bullet line `- @<identifier>` (without the line terminator),
from `entry_lines.append(f"- @{follower}")`. -/
def bullet (f : String) : List Char := '-' :: ' ' :: '@' :: f.data

/-- Structural lexicographic strict comparison of character lists, by code
point; agrees with the `<` of `String` (see `lexLt_iff_lt`). -/
def lexLt : List Char → List Char → Bool
  | [], [] => false
  | [], _ :: _ => true
  | _ :: _, [] => false
  | a :: as, b :: bs =>
    if a < b then true
    else if b < a then false
    else lexLt as bs

theorem lexLt_iff_lex :
    ∀ as bs : List Char, lexLt as bs = true ↔ List.Lex (· < ·) as bs := by
  intro as
  induction as with
  | nil =>
    intro bs
    cases bs with
    | nil => simp [lexLt]
    | cons b bs => simp [lexLt, List.Lex.nil]
  | cons a as ih =>
    intro bs
    cases bs with
    | nil =>
      simp only [lexLt, Bool.false_eq_true, false_iff]
      intro h
      cases h
    | cons b bs =>
      by_cases hab : a < b
      · simp only [lexLt, if_pos hab, true_iff]
        exact List.Lex.rel hab
      · by_cases hba : b < a
        · simp only [lexLt, if_neg hab, if_pos hba, Bool.false_eq_true, false_iff]
          intro h
          cases h with
          | cons h' => exact absurd hba (lt_irrefl _)
          | rel h' => exact absurd h' hab
        · have hba' : a = b := le_antisymm (not_lt.1 hba) (not_lt.1 hab)
          subst hba'
          simp only [lexLt, if_neg hab, if_neg hba]
          rw [ih bs]
          constructor
          · exact fun h => List.Lex.cons h
          · intro h
            cases h with
            | cons h' => exact h'
            | rel h' => exact absurd h' (lt_irrefl _)

theorem lexLt_iff_lt (x y : String) : lexLt x.data y.data = true ↔ x < y := by
  rw [String.lt_iff_toList_lt]
  exact lexLt_iff_lex x.data y.data

/-- Insert a string into a list, keeping `≤`-order; helper for `sortList`. -/
def insertSorted (x : String) : List String → List String
  | [] => [x]
  | y :: ys => if lexLt y.data x.data then y :: insertSorted x ys else x :: y :: ys

/-- Insertion sort on strings.  Python's `sorted` produces the same list on
any duplicate-free input, since sorted permutations are unique. -/
def sortList (l : List String) : List String := l.foldr insertSorted []

theorem insertSorted_perm (x : String) (l : List String) :
    List.Perm (insertSorted x l) (x :: l) := by
  induction l with
  | nil => exact List.Perm.refl _
  | cons y ys ih =>
    by_cases h : lexLt y.data x.data = true
    · simp only [insertSorted, if_pos h]
      exact (ih.cons y).trans (List.Perm.swap x y ys)
    · simp only [insertSorted, if_neg h]
      exact List.Perm.refl _

theorem sortList_perm (l : List String) : List.Perm (sortList l) l := by
  induction l with
  | nil => exact List.Perm.refl _
  | cons x xs ih => exact (insertSorted_perm x (sortList xs)).trans (ih.cons x)

theorem insertSorted_sorted (x : String) {l : List String}
    (h : l.Sorted (· ≤ ·)) : (insertSorted x l).Sorted (· ≤ ·) := by
  induction l with
  | nil => simp [insertSorted]
  | cons y ys ih =>
    rw [List.sorted_cons] at h
    by_cases hyx : lexLt y.data x.data = true
    · have hyx' : y < x := (lexLt_iff_lt y x).1 hyx
      rw [insertSorted, if_pos hyx, List.sorted_cons]
      refine ⟨?_, ih h.2⟩
      intro b hb
      have hb' := (insertSorted_perm x ys).mem_iff.1 hb
      rcases List.mem_cons.1 hb' with rfl | hb'
      · exact le_of_lt hyx'
      · exact h.1 b hb'
    · have hxy : x ≤ y := not_lt.1 fun hlt => hyx ((lexLt_iff_lt y x).2 hlt)
      rw [insertSorted, if_neg hyx, List.sorted_cons]
      refine ⟨?_, List.sorted_cons.2 h⟩
      intro b hb
      rcases List.mem_cons.1 hb with rfl | hb
      · exact hxy
      · exact le_trans hxy (h.1 b hb)

theorem sortList_sorted (l : List String) : (sortList l).Sorted (· ≤ ·) := by
  induction l with
  | nil => simp [sortList]
  | cons x xs ih => exact insertSorted_sorted x ih

theorem sortList_congr {l₁ l₂ : List String} (h : List.Perm l₁ l₂) :
    sortList l₁ = sortList l₂ :=
  List.eq_of_perm_of_sorted
    ((sortList_perm l₁).trans (h.trans (sortList_perm l₂).symm))
    (sortList_sorted l₁) (sortList_sorted l₂)

/-- The `≤`-sorted list of the elements of a finite set of strings;
models Python's `sorted(someSet)`. -/
def sortedList (s : Finset String) : List String :=
  Quotient.liftOn s.val sortList fun _ _ h => sortList_congr h

theorem sortedList_sorted (s : Finset String) :
    (sortedList s).Sorted (· ≤ ·) := by
  rcases s with ⟨m, hm⟩
  induction m using Quotient.inductionOn with
  | h l => exact sortList_sorted l

theorem sortedList_mem (s : Finset String) (x : String) :
    x ∈ sortedList s ↔ x ∈ s := by
  rcases s with ⟨m, hm⟩
  induction m using Quotient.inductionOn with
  | h l =>
    show x ∈ sortList l ↔ _
    rw [(sortList_perm l).mem_iff]
    simp [Finset.mem_def]

theorem sortedList_nodup (s : Finset String) : (sortedList s).Nodup := by
  rcases s with ⟨m, hm⟩
  induction m using Quotient.inductionOn with
  | h l =>
    show (sortList l).Nodup
    rw [(sortList_perm l).nodup_iff]
    exact hm

theorem sortedList_sorted_lt (s : Finset String) :
    (sortedList s).Sorted (· < ·) :=
  (sortedList_sorted s).lt_of_le (sortedList_nodup s)

/-- Universal-newline translation performed by Python's text-mode file
read: a CRLF pair and a lone CR both become a single LF. -/
def normalizeNL : List Char → List Char
  | [] => []
  | c :: cs =>
    if c = '\r' then
      match cs with
      | [] => ['\n']
      | c' :: cs' =>
        if c' = '\n' then '\n' :: normalizeNL cs'
        else '\n' :: normalizeNL (c' :: cs')
    else c :: normalizeNL cs

/-- Split a character list at each LF (Python line iteration after the
universal-newline translation; the trailing `'\n'` of each raw line
disappears into the split, which is equivalent after stripping). -/
def splitLF : List Char → List (List Char)
  | [] => [[]]
  | c :: cs =>
    if c = '\n' then [] :: splitLF cs
    else
      match splitLF cs with
      | [] => [[c]]
      | l :: ls => (c :: l) :: ls

/-- The lines of a text-mode file read: universal-newline translation,
then splitting at LF. -/
def splitNL (content : List Char) : List (List Char) :=
  splitLF (normalizeNL content)

/-- The whitespace class of Python's `str.strip()` / `str.isspace()`
(CPython `Py_UNICODE_ISSPACE`): HT..CR, FS..US, space, NEL, NBSP, Ogham
space mark, the U+2000..U+200A spaces, line and paragraph separators,
narrow no-break space, medium mathematical space, ideographic space. -/
def pythonWhitespace (c : Char) : Bool :=
  decide ((0x09 ≤ c.toNat ∧ c.toNat ≤ 0x0d) ∨ (0x1c ≤ c.toNat ∧ c.toNat ≤ 0x1f)
    ∨ c.toNat = 0x20 ∨ c.toNat = 0x85 ∨ c.toNat = 0xa0 ∨ c.toNat = 0x1680
    ∨ (0x2000 ≤ c.toNat ∧ c.toNat ≤ 0x200a) ∨ c.toNat = 0x2028
    ∨ c.toNat = 0x2029 ∨ c.toNat = 0x202f ∨ c.toNat = 0x205f
    ∨ c.toNat = 0x3000)

/-- Strip leading and trailing whitespace (Python `str.strip()`). -/
def trim (l : List Char) : List Char :=
  ((l.dropWhile pythonWhitespace).reverse.dropWhile pythonWhitespace).reverse

/-- `load_followers_from_file`: `none` (file absent) loads as the empty set;
otherwise each line is stripped, blank lines are dropped, and the remaining
lines form a set. -/
def load_followers_from_file (file : Option (List Char)) : Finset String :=
  match file with
  | none => ∅
  | some content =>
    (((((splitNL content).map trim).filter (· ≠ [])).map
      fun l => (⟨l⟩ : String)).toFinset)

/-- `save_followers_to_file`: the file content written for a follower list,
one `f"{follower}\n"` per element. -/
def save_followers_to_file : List String → List Char
  | [] => []
  | f :: fs => f.data ++ '\n' :: save_followers_to_file fs

/-- The diff computed by `main` (lines 210–216): gained = current − previous,
removed = previous − current. -/
def compare_followers (current previous : Finset String) :
    Finset String × Finset String :=
  (current \ previous, previous \ current)

/-- Position `i` of `c` is a line start (start of text or right after a
newline) at which the four characters `### ` follow; this is exactly where
`re.compile(r"^### ", re.MULTILINE)` can match. -/
def h3AtPos (c : List Char) (i : Nat) : Bool :=
  (i == 0 || c.get? (i-1) == some '\n') && h3marker.isPrefixOf (c.drop i)

/-- Scan positions `i, i+1, …` (at most `fuel` of them) for the first
multiline `^### ` match. -/
def findH3Aux (c : List Char) : Nat → Nat → Option Nat
  | _, 0 => none
  | i, fuel+1 => if h3AtPos c i then some i else findH3Aux c (i+1) fuel

/-- `re.compile(r"^### ", re.MULTILINE).search(content)`: index of the
leftmost match, if any. -/
def findH3 (c : List Char) : Option Nat := findH3Aux c 0 (c.length + 1)

/-- `"\n".join(lines)`. -/
def joinLines : List (List Char) → List Char
  | [] => []
  | [l] => l
  | l :: l' :: ls => l ++ '\n' :: joinLines (l' :: ls)

/-- The `entry_lines` list built by `update_changelog`: date heading, blank,
then the conditional gained and removed sub-blocks. -/
def entryLines (gained removed : Finset String) (d : List Char) :
    List (List Char) :=
  [h3marker ++ d, []]
    ++ (if gained.Nonempty then
          [newFollowersHeader, []] ++ (sortedList gained).map bullet ++ [[]]
        else [])
    ++ (if removed.Nonempty then
          [removedFollowersHeader, []] ++ (sortedList removed).map bullet ++ [[]]
        else [])

/-- `new_entry = "\n".join(entry_lines)`. -/
def renderEntry (gained removed : Finset String) (d : List Char) : List Char :=
  joinLines (entryLines gained removed d)

/-- Terminal states of one `update_changelog` invocation. -/
inductive Outcome where
  | skipped
  | inserted
  | created
deriving DecidableEq

/-- `update_changelog`: `d` is the formatted date string
(`current_date.strftime("%Y-%m-%d")`).  On an existing document the literal
date substring check runs first; then the entry is spliced before the first
`^### ` match or appended; on a missing document the preamble plus entry is
written. -/
def update_changelog (gained removed : Finset String)
    (doc : Option (List Char)) (d : List Char) : List Char × Outcome :=
  match doc with
  | some content =>
    if d <:+: content then (content, Outcome.skipped)
    else
      match findH3 content with
      | some i =>
        (content.take i ++ renderEntry gained removed d ++ content.drop i,
         Outcome.inserted)
      | none => (content ++ renderEntry gained removed d, Outcome.inserted)
  | none => (headerText ++ renderEntry gained removed d, Outcome.created)

/-- Modelled from the spec: the post-write normalization pass of
`update_changelog` (the `mdformat` call) is not present in
`src/track_followers.py`; only its test
(`tests/test_track_followers.py::test_mdformat_error_handled`) is.  Per
§4.3.5/§7 of the spec, after any successful insertion a best-effort
formatting pass runs over the whole document; its failure (`fmt _ = none`)
is reported (third component `true`) and never rolls back the inserted
content. -/
def update_changelog_formatted (fmt : List Char → Option (List Char))
    (gained removed : Finset String) (doc : Option (List Char))
    (d : List Char) : List Char × Outcome × Bool :=
  match update_changelog gained removed doc d with
  | (content, Outcome.skipped) => (content, Outcome.skipped, false)
  | (content, outcome) =>
    match fmt content with
    | some fmted => (fmted, outcome, false)
    | none => (content, outcome, true)

/-- The reconciliation core of `main` (lines 203–227): save today's snapshot
unconditionally; if yesterday's file exists, diff its contents against
today's set and update the changelog only when the diff is non-empty.
Returns (content written for today's snapshot file, resulting changelog
state). -/
def reconcile (followers : List String) (prevFile : Option (List Char))
    (changelog : Option (List Char)) (d : List Char) :
    List Char × Option (List Char) :=
  let saved := save_followers_to_file followers
  match prevFile with
  | none => (saved, changelog)
  | some content =>
    let prev := load_followers_from_file (some content)
    let cur := followers.toFinset
    let changes := compare_followers cur prev
    if changes.1.Nonempty ∨ changes.2.Nonempty then
      (saved, some (update_changelog changes.1 changes.2 changelog d).1)
    else (saved, changelog)

/-- The concatenation of the two conditional sub-blocks of `entry_lines`. -/
def subBlocks (g r : Finset String) : List (List Char) :=
  (if g.Nonempty then
      [newFollowersHeader, []] ++ (sortedList g).map bullet ++ [[]]
    else [])
    ++ (if r.Nonempty then
      [removedFollowersHeader, []] ++ (sortedList r).map bullet ++ [[]]
    else [])

theorem renderEntry_cons (g r : Finset String) (d : List Char) :
    renderEntry g r d
      = (h3marker ++ d) ++ '\n' :: joinLines ([] :: subBlocks g r) := rfl

theorem date_infix_renderEntry (g r : Finset String) (d : List Char) :
    d <:+: renderEntry g r d :=
  ⟨h3marker, '\n' :: joinLines ([] :: subBlocks g r), rfl⟩

theorem update_changelog_skip (g r : Finset String) {content d : List Char}
    (hd : d <:+: content) :
    update_changelog g r (some content) d = (content, Outcome.skipped) := by
  simp [update_changelog, hd]

theorem date_infix_update (g r : Finset String) (doc : Option (List Char))
    (d : List Char) : d <:+: (update_changelog g r doc d).1 := by
  cases doc with
  | none =>
    exact (date_infix_renderEntry g r d).trans (List.suffix_append _ _).isInfix
  | some content =>
    by_cases hd : d <:+: content
    · rw [update_changelog_skip g r hd]
      exact hd
    · cases hfind : findH3 content with
      | some i =>
        simp only [update_changelog, if_neg hd, hfind]
        exact (date_infix_renderEntry g r d).trans (List.infix_append _ _ _)
      | none =>
        simp only [update_changelog, if_neg hd, hfind]
        exact (date_infix_renderEntry g r d).trans (List.suffix_append _ _).isInfix

/-- Claim C1: on an existing changelog document, if the formatted date
string occurs anywhere as a substring, `update_changelog` skips and leaves
the document unchanged; and a second run for the same date always skips,
leaving the document identical to the state after the first run. -/
theorem spec_C1_duplicate_date_skip (content d : List Char)
    (g r g₂ r₂ : Finset String) :
    (d <:+: content →
      update_changelog g r (some content) d = (content, Outcome.skipped))
    ∧ ∀ changelog : Option (List Char),
        update_changelog g₂ r₂ (some (update_changelog g r changelog d).1) d
          = ((update_changelog g r changelog d).1, Outcome.skipped) := by
  constructor
  · intro hd
    exact update_changelog_skip g r hd
  · intro changelog
    exact update_changelog_skip g₂ r₂ (date_infix_update g r changelog d)

/-- Witness for C1 at a concrete document containing the date, and a
concrete first-run/second-run pair. -/
theorem spec_C1_witness :
    ("2024-01-15".toList <:+:
        "# Follower Changelog\n\n### 2024-01-15\n\n- @a\n".toList)
    ∧ update_changelog ∅ {"y"}
        (some "# Follower Changelog\n\n### 2024-01-15\n\n- @a\n".toList)
        "2024-01-15".toList
      = ("# Follower Changelog\n\n### 2024-01-15\n\n- @a\n".toList,
         Outcome.skipped)
    ∧ update_changelog {"x"} ∅
        (some (update_changelog ∅ {"y"} none "2024-01-15".toList).1)
        "2024-01-15".toList
      = ((update_changelog ∅ {"y"} none "2024-01-15".toList).1,
         Outcome.skipped) :=
  ⟨by decide,
   (spec_C1_duplicate_date_skip
      "# Follower Changelog\n\n### 2024-01-15\n\n- @a\n".toList
      "2024-01-15".toList ∅ {"y"} {"x"} ∅).1 (by decide),
   (spec_C1_duplicate_date_skip
      "# Follower Changelog\n\n### 2024-01-15\n\n- @a\n".toList
      "2024-01-15".toList ∅ {"y"} {"x"} ∅).2 none⟩

theorem h3AtPos_false_of_le {c : List Char} {i : Nat} (h : c.length ≤ i) :
    h3AtPos c i = false := by
  unfold h3AtPos
  rw [List.drop_eq_nil_of_le h]
  simp [h3marker, List.isPrefixOf]

theorem h3AtPos_lt_length {c : List Char} {i : Nat}
    (h : h3AtPos c i = true) : i < c.length := by
  by_contra hc
  rw [h3AtPos_false_of_le (le_of_not_lt hc)] at h
  exact Bool.noConfusion h

theorem findH3Aux_eq_some {c : List Char} :
    ∀ {fuel i k : Nat}, findH3Aux c i fuel = some k →
      h3AtPos c k = true ∧ i ≤ k
        ∧ ∀ j, i ≤ j → j < k → h3AtPos c j = false := by
  intro fuel
  induction fuel with
  | zero =>
    intro i k h
    simp [findH3Aux] at h
  | succ n ih =>
    intro i k h
    rw [findH3Aux] at h
    by_cases hx : h3AtPos c i = true
    · rw [if_pos hx] at h
      obtain rfl : i = k := Option.some.inj h
      exact ⟨hx, le_refl _, fun j hij hjk => absurd hjk (by omega)⟩
    · rw [if_neg hx] at h
      obtain ⟨hk, hik, hmin⟩ := ih h
      refine ⟨hk, by omega, ?_⟩
      intro j hij hjk
      rcases Nat.eq_or_lt_of_le hij with rfl | hij'
      · exact Bool.eq_false_iff.mpr hx
      · exact hmin j (by omega) hjk

theorem findH3Aux_eq_none {c : List Char} :
    ∀ {fuel i : Nat}, findH3Aux c i fuel = none →
      ∀ j, i ≤ j → j < i + fuel → h3AtPos c j = false := by
  intro fuel
  induction fuel with
  | zero =>
    intro i h j hij hj
    exact absurd hj (by omega)
  | succ n ih =>
    intro i h j hij hj
    rw [findH3Aux] at h
    by_cases hx : h3AtPos c i = true
    · rw [if_pos hx] at h
      exact Option.noConfusion h
    · rw [if_neg hx] at h
      rcases Nat.eq_or_lt_of_le hij with rfl | hij'
      · exact Bool.eq_false_iff.mpr hx
      · exact ih h j hij' (by omega)

theorem findH3_eq_some {c : List Char} {i : Nat} (h : findH3 c = some i) :
    h3AtPos c i = true ∧ ∀ j, j < i → h3AtPos c j = false := by
  obtain ⟨hk, _, hmin⟩ := findH3Aux_eq_some h
  exact ⟨hk, fun j hj => hmin j (Nat.zero_le j) hj⟩

theorem findH3_eq_none {c : List Char} (h : findH3 c = none) :
    ∀ j, h3AtPos c j = false := by
  intro j
  by_cases hj : j < c.length + 1
  · exact findH3Aux_eq_none h j (Nat.zero_le j) (by omega)
  · exact h3AtPos_false_of_le (by omega)

/-- Claim C2: when the duplicate-date check passes on an existing document,
the new entry is spliced in immediately before the first line starting with
`### ` (all text from that line on preserved verbatim), and appended to the
end of the existing content when no such line exists. -/
theorem spec_C2_insertion_position (content : List Char)
    (g r : Finset String) (d : List Char) (h : ¬ d <:+: content) :
    ((∀ i, h3AtPos content i = false) →
      update_changelog g r (some content) d
        = (content ++ renderEntry g r d, Outcome.inserted))
    ∧ ∀ i, h3AtPos content i = true →
        (∀ j, j < i → h3AtPos content j = false) →
        update_changelog g r (some content) d
          = (content.take i ++ renderEntry g r d ++ content.drop i,
             Outcome.inserted) := by
  constructor
  · intro hall
    have hfind : findH3 content = none := by
      cases hfind : findH3 content with
      | none => rfl
      | some k =>
        have hk := (findH3_eq_some hfind).1
        rw [hall k] at hk
        exact Bool.noConfusion hk
    simp [update_changelog, h, hfind]
  · intro i hi hmin
    have hfind : findH3 content = some i := by
      cases hfind : findH3 content with
      | none =>
        have hk := findH3_eq_none hfind i
        rw [hi] at hk
        exact Bool.noConfusion hk
      | some k =>
        obtain ⟨hk, hkmin⟩ := findH3_eq_some hfind
        rcases Nat.lt_trichotomy k i with h1 | h2 | h3
        · rw [hmin k h1] at hk
          exact Bool.noConfusion hk
        · rw [h2]
        · rw [hkmin i h3] at hi
          exact Bool.noConfusion hi
    simp [update_changelog, h, hfind]

/-- Witness for C2 at a concrete document whose first `### ` line starts at
index 6, with a fresh date. -/
theorem spec_C2_witness :
    ¬ ("2024-01-15".toList <:+: "intro\n### 2024-01-10\n- @x\n".toList)
    ∧ h3AtPos "intro\n### 2024-01-10\n- @x\n".toList 6 = true
    ∧ update_changelog {"x"} {"y"}
        (some "intro\n### 2024-01-10\n- @x\n".toList) "2024-01-15".toList
      = ("intro\n### 2024-01-10\n- @x\n".toList.take 6
          ++ renderEntry {"x"} {"y"} "2024-01-15".toList
          ++ "intro\n### 2024-01-10\n- @x\n".toList.drop 6,
         Outcome.inserted) :=
  ⟨by decide, by decide,
   (spec_C2_insertion_position "intro\n### 2024-01-10\n- @x\n".toList
      {"x"} {"y"} "2024-01-15".toList (by decide)).2 6 (by decide)
      (by decide)⟩

/-- Claim C6: a successful insertion into an existing document changes
neither the preamble (the text before the first `### ` line — the whole
document when none exists) nor any byte after the insertion point. -/
theorem spec_C6_frame (content : List Char) (g r : Finset String)
    (d : List Char) (h : ¬ d <:+: content) :
    (∀ i, findH3 content = some i →
      ((update_changelog g r (some content) d).1).take i = content.take i
      ∧ ((update_changelog g r (some content) d).1).drop
            (i + (renderEntry g r d).length) = content.drop i)
    ∧ (findH3 content = none →
      ((update_changelog g r (some content) d).1).take content.length
        = content) := by
  constructor
  · intro i hfind
    have hi : i < content.length :=
      h3AtPos_lt_length (findH3_eq_some hfind).1
    have hres : (update_changelog g r (some content) d).1
        = content.take i ++ renderEntry g r d ++ content.drop i := by
      simp [update_changelog, h, hfind]
    rw [hres]
    constructor
    · rw [List.append_assoc]
      exact List.take_left'
        (by rw [List.length_take]; exact Nat.min_eq_left (le_of_lt hi))
    · exact List.drop_left'
        (by rw [List.length_append, List.length_take,
              Nat.min_eq_left (le_of_lt hi)])
  · intro hfind
    have hres : (update_changelog g r (some content) d).1
        = content ++ renderEntry g r d := by
      simp [update_changelog, h, hfind]
    rw [hres]
    exact List.take_left' rfl

/-- Witness for C6: same concrete splice as the C2 witness, checked for the
preamble and the trailing bytes. -/
theorem spec_C6_witness :
    ¬ ("2024-01-16".toList <:+: "intro\n### 2024-01-10\n- @x\n".toList)
    ∧ findH3 "intro\n### 2024-01-10\n- @x\n".toList = some 6
    ∧ ((update_changelog {"z"} ∅
          (some "intro\n### 2024-01-10\n- @x\n".toList)
          "2024-01-16".toList).1).take 6
        = "intro\n### 2024-01-10\n- @x\n".toList.take 6
    ∧ ((update_changelog {"z"} ∅
          (some "intro\n### 2024-01-10\n- @x\n".toList)
          "2024-01-16".toList).1).drop
          (6 + (renderEntry {"z"} ∅ "2024-01-16".toList).length)
        = "intro\n### 2024-01-10\n- @x\n".toList.drop 6 :=
  ⟨by decide, by decide,
   ((spec_C6_frame "intro\n### 2024-01-10\n- @x\n".toList {"z"} ∅
      "2024-01-16".toList (by decide)).1 6 (by decide)).1,
   ((spec_C6_frame "intro\n### 2024-01-10\n- @x\n".toList {"z"} ∅
      "2024-01-16".toList (by decide)).1 6 (by decide)).2⟩

/-- Claim C4: the computed change set is `gained = current − previous`,
`removed = previous − current`; equal inputs (in particular both empty)
give the empty change set, and the two components are disjoint. -/
theorem spec_C4_diff (current previous : Finset String) :
    (compare_followers current previous).1 = current \ previous
    ∧ (compare_followers current previous).2 = previous \ current
    ∧ (∀ x, x ∈ (compare_followers current previous).1
          ↔ x ∈ current ∧ x ∉ previous)
    ∧ (∀ x, x ∈ (compare_followers current previous).2
          ↔ x ∈ previous ∧ x ∉ current)
    ∧ (current = previous → compare_followers current previous = (∅, ∅))
    ∧ Disjoint (compare_followers current previous).1
        (compare_followers current previous).2 := by
  refine ⟨rfl, rfl, fun x => Finset.mem_sdiff, fun x => Finset.mem_sdiff,
    ?_, ?_⟩
  · rintro rfl
    simp [compare_followers]
  · exact disjoint_sdiff_sdiff

/-- Witness for C4: concrete diff, and the equal-inputs case discharged. -/
theorem spec_C4_witness :
    compare_followers {"a", "b"} {"b", "c"} = ({"a"}, {"c"})
    ∧ compare_followers {"a"} {"a"} = (∅, ∅) :=
  ⟨by decide, (spec_C4_diff {"a"} {"a"}).2.2.2.2.1 rfl⟩

/-- Claim C8: loading from an absent file yields the empty set; a string is
loaded from an existing file iff it is the non-blank whitespace-trimmed form
of one of the file's lines (set semantics collapse duplicates). -/
theorem spec_C8_load :
    load_followers_from_file none = ∅
    ∧ ∀ content : List Char, ∀ s : String,
        s ∈ load_followers_from_file (some content)
          ↔ s.data ≠ [] ∧ s.data ∈ (splitNL content).map trim := by
  refine ⟨rfl, ?_⟩
  intro content s
  simp only [load_followers_from_file, List.mem_toFinset, List.mem_map,
    List.mem_filter, decide_eq_true_eq]
  constructor
  · rintro ⟨l, ⟨hmem, hne⟩, rfl⟩
    exact ⟨hne, hmem⟩
  · rintro ⟨hne, hmem⟩
    exact ⟨s.data, ⟨hmem, hne⟩, rfl⟩

/-- Witness for C8 at a file with padding, a blank line and a duplicate. -/
theorem spec_C8_witness :
    load_followers_from_file none = ∅
    ∧ ("a" ∈ load_followers_from_file (some "  a \n\nb\na\n".toList)
        ↔ "a".data ≠ []
          ∧ "a".data ∈ (splitNL "  a \n\nb\na\n".toList).map trim) :=
  ⟨spec_C8_load.1, spec_C8_load.2 "  a \n\nb\na\n".toList "a"⟩

/-- Claim C10: with both change sets empty, the rendered entry is just the
dated level-3 heading line, and on a missing document `update_changelog`
still creates the document as preamble plus that entry. -/
theorem spec_C10_empty_changes (d : List Char) :
    renderEntry ∅ ∅ d = h3marker ++ d ++ ['\n']
    ∧ update_changelog ∅ ∅ none d
        = (headerText ++ (h3marker ++ d ++ ['\n']), Outcome.created) := by
  have h1 : renderEntry ∅ ∅ d = h3marker ++ d ++ ['\n'] := by
    rw [renderEntry_cons]
    simp [Finset.not_nonempty_empty, joinLines, List.append_assoc]
  exact ⟨h1, by simp [update_changelog, h1]⟩

/-- Witness for C10 at a concrete date. -/
theorem spec_C10_witness :
    renderEntry ∅ ∅ "2024-01-15".toList
      = h3marker ++ "2024-01-15".toList ++ ['\n']
    ∧ update_changelog ∅ ∅ none "2024-01-15".toList
        = (headerText ++ (h3marker ++ "2024-01-15".toList ++ ['\n']),
           Outcome.created) :=
  spec_C10_empty_changes "2024-01-15".toList

/-- Claim C3: the rendered entry is the dated level-3 heading followed by a
gained sub-block present iff `gained` is non-empty and then a removed
sub-block present iff `removed` is non-empty (gained before removed); each
sub-block lists the identifiers as `- @<id>` bullets in strictly ascending
lexicographic order, containing exactly the set's elements. -/
theorem spec_C3_entry_rendering (gained removed : Finset String)
    (d : List Char) :
    ∃ gb rb : List (List Char),
      entryLines gained removed d = [h3marker ++ d, []] ++ gb ++ rb
      ∧ (gb ≠ [] ↔ gained.Nonempty)
      ∧ (rb ≠ [] ↔ removed.Nonempty)
      ∧ (gained.Nonempty → ∃ gl : List String,
          gb = [newFollowersHeader, []] ++ gl.map bullet ++ [[]]
          ∧ gl.Sorted (· < ·) ∧ ∀ f, f ∈ gl ↔ f ∈ gained)
      ∧ (removed.Nonempty → ∃ rl : List String,
          rb = [removedFollowersHeader, []] ++ rl.map bullet ++ [[]]
          ∧ rl.Sorted (· < ·) ∧ ∀ f, f ∈ rl ↔ f ∈ removed) := by
  refine ⟨(if gained.Nonempty then
      [newFollowersHeader, []] ++ (sortedList gained).map bullet ++ [[]]
    else []),
    (if removed.Nonempty then
      [removedFollowersHeader, []] ++ (sortedList removed).map bullet ++ [[]]
    else []), rfl, ?_, ?_, ?_, ?_⟩
  · by_cases hg : gained.Nonempty <;> simp [hg]
  · by_cases hr : removed.Nonempty <;> simp [hr]
  · intro hg
    rw [if_pos hg]
    exact ⟨sortedList gained, rfl, sortedList_sorted_lt gained,
      fun f => sortedList_mem gained f⟩
  · intro hr
    rw [if_pos hr]
    exact ⟨sortedList removed, rfl, sortedList_sorted_lt removed,
      fun f => sortedList_mem removed f⟩

/-- Witness for C3 at concrete change sets. -/
theorem spec_C3_witness :
    ∃ gb rb : List (List Char),
      entryLines {"b", "a"} {"c"} "2024-01-15".toList
        = [h3marker ++ "2024-01-15".toList, []] ++ gb ++ rb
      ∧ (gb ≠ [] ↔ ({"b", "a"} : Finset String).Nonempty)
      ∧ (rb ≠ [] ↔ ({"c"} : Finset String).Nonempty)
      ∧ (({"b", "a"} : Finset String).Nonempty → ∃ gl : List String,
          gb = [newFollowersHeader, []] ++ gl.map bullet ++ [[]]
          ∧ gl.Sorted (· < ·) ∧ ∀ f, f ∈ gl ↔ f ∈ ({"b", "a"} : Finset String))
      ∧ (({"c"} : Finset String).Nonempty → ∃ rl : List String,
          rb = [removedFollowersHeader, []] ++ rl.map bullet ++ [[]]
          ∧ rl.Sorted (· < ·) ∧ ∀ f, f ∈ rl ↔ f ∈ ({"c"} : Finset String)) :=
  spec_C3_entry_rendering {"b", "a"} {"c"} "2024-01-15".toList

/-- Claim C5: a reconciliation run always persists today's snapshot; the
changelog is mutated only through `update_changelog` and only when a
prior-day snapshot exists and the change set is non-empty — with no prior
snapshot, or equal previous/current sets, the changelog state is
untouched. -/
theorem spec_C5_reconcile (followers : List String)
    (prevFile : Option (List Char)) (changelog : Option (List Char))
    (d : List Char) :
    (reconcile followers prevFile changelog d).1
      = save_followers_to_file followers
    ∧ (prevFile = none →
        (reconcile followers prevFile changelog d).2 = changelog)
    ∧ (∀ content, prevFile = some content →
        load_followers_from_file (some content) = followers.toFinset →
        (reconcile followers prevFile changelog d).2 = changelog)
    ∧ (∀ content, prevFile = some content →
        ((compare_followers followers.toFinset
            (load_followers_from_file (some content))).1.Nonempty
          ∨ (compare_followers followers.toFinset
              (load_followers_from_file (some content))).2.Nonempty) →
        (reconcile followers prevFile changelog d).2
          = some (update_changelog
              (compare_followers followers.toFinset
                (load_followers_from_file (some content))).1
              (compare_followers followers.toFinset
                (load_followers_from_file (some content))).2
              changelog d).1) := by
  refine ⟨?_, ?_, ?_, ?_⟩
  · cases prevFile with
    | none => rfl
    | some content =>
      by_cases hne : (compare_followers followers.toFinset
            (load_followers_from_file (some content))).1.Nonempty
          ∨ (compare_followers followers.toFinset
              (load_followers_from_file (some content))).2.Nonempty
      · simp [reconcile, hne]
      · simp [reconcile, hne]
  · rintro rfl
    rfl
  · rintro content rfl heq
    have hcond : ¬((compare_followers followers.toFinset
          (load_followers_from_file (some content))).1.Nonempty
        ∨ (compare_followers followers.toFinset
            (load_followers_from_file (some content))).2.Nonempty) := by
      rw [heq]
      simp [compare_followers]
    simp [reconcile, hcond]
  · rintro content rfl hne
    simp [reconcile, hne]

/-- Witness for C5: one run with a differing prior snapshot (document
mutated through `update_changelog`) and one first run (no mutation). -/
theorem spec_C5_witness :
    (reconcile ["a"] (some "b\n".toList) none "2024-01-15".toList).1
      = save_followers_to_file ["a"]
    ∧ (reconcile ["a"] (some "b\n".toList) none "2024-01-15".toList).2
        = some (update_changelog
            (compare_followers (["a"] : List String).toFinset
              (load_followers_from_file (some "b\n".toList))).1
            (compare_followers (["a"] : List String).toFinset
              (load_followers_from_file (some "b\n".toList))).2
            none "2024-01-15".toList).1
    ∧ (reconcile ["a"] none none "2024-01-15".toList).2 = none
    ∧ (reconcile ["a"] (some "a\n".toList) none "2024-01-15".toList).2
        = none :=
  ⟨(spec_C5_reconcile ["a"] (some "b\n".toList) none "2024-01-15".toList).1,
   (spec_C5_reconcile ["a"] (some "b\n".toList) none
      "2024-01-15".toList).2.2.2 "b\n".toList rfl (by decide),
   (spec_C5_reconcile ["a"] none none "2024-01-15".toList).2.1 rfl,
   (spec_C5_reconcile ["a"] (some "a\n".toList) none
      "2024-01-15".toList).2.2.1 "a\n".toList rfl (by decide)⟩

/-- Claim C7 (modelled from the spec, see `update_changelog_formatted`):
after a non-skipped `update_changelog`, the whole resulting document goes
through the formatting pass; if the pass fails the inserted content is kept
and the failure is only reported (third component `true`), never
propagated; a skipped invocation formats nothing. -/
theorem spec_C7_formatting_best_effort (fmt : List Char → Option (List Char))
    (g r : Finset String) (doc : Option (List Char)) (d : List Char) :
    ((update_changelog g r doc d).2 ≠ Outcome.skipped →
      fmt (update_changelog g r doc d).1 = none →
      update_changelog_formatted fmt g r doc d
        = ((update_changelog g r doc d).1,
           (update_changelog g r doc d).2, true))
    ∧ (∀ fmted, (update_changelog g r doc d).2 ≠ Outcome.skipped →
        fmt (update_changelog g r doc d).1 = some fmted →
        update_changelog_formatted fmt g r doc d
          = (fmted, (update_changelog g r doc d).2, false))
    ∧ ((update_changelog g r doc d).2 = Outcome.skipped →
        update_changelog_formatted fmt g r doc d
          = ((update_changelog g r doc d).1, Outcome.skipped, false)) := by
  rcases hu : update_changelog g r doc d with ⟨content, oc⟩
  refine ⟨?_, ?_, ?_⟩
  · intro hne hf
    simp only [hu] at hne hf ⊢
    cases oc with
    | skipped => exact absurd rfl hne
    | inserted => simp [update_changelog_formatted, hu, hf]
    | created => simp [update_changelog_formatted, hu, hf]
  · intro fmted hne hf
    simp only [hu] at hne hf ⊢
    cases oc with
    | skipped => exact absurd rfl hne
    | inserted => simp [update_changelog_formatted, hu, hf]
    | created => simp [update_changelog_formatted, hu, hf]
  · intro hsk
    simp only [hu] at hsk ⊢
    subst hsk
    simp [update_changelog_formatted, hu]

/-- Witness for C7: a failing pass keeps the created content and reports
failure; a succeeding pass rewrites the whole document. -/
theorem spec_C7_witness :
    ((update_changelog ∅ {"q"} none "2024-01-15".toList).2 ≠ Outcome.skipped)
    ∧ update_changelog_formatted (fun _ => none) ∅ {"q"} none
        "2024-01-15".toList
      = ((update_changelog ∅ {"q"} none "2024-01-15".toList).1,
         (update_changelog ∅ {"q"} none "2024-01-15".toList).2, true)
    ∧ update_changelog_formatted (fun c => some (c ++ ['\n'])) ∅ {"q"} none
        "2024-01-15".toList
      = ((update_changelog ∅ {"q"} none "2024-01-15".toList).1 ++ ['\n'],
         (update_changelog ∅ {"q"} none "2024-01-15".toList).2, false) :=
  ⟨by decide,
   (spec_C7_formatting_best_effort (fun _ => none) ∅ {"q"} none
      "2024-01-15".toList).1 (by decide) rfl,
   (spec_C7_formatting_best_effort (fun c => some (c ++ ['\n'])) ∅ {"q"} none
      "2024-01-15".toList).2.1
      ((update_changelog ∅ {"q"} none "2024-01-15".toList).1 ++ ['\n'])
      (by decide) rfl⟩

/-- Counterexample to C9 as stated: `"a\nb"` is non-empty and has no
leading or trailing whitespace, yet saving `["a\nb"]` and loading back
yields `{"a", "b"}`, not `{"a\nb"}`. -/
theorem spec_C9_roundtrip_counterexample :
    (∀ f ∈ (["a\nb"] : List String), f.data ≠ [] ∧ trim f.data = f.data)
    ∧ load_followers_from_file (some (save_followers_to_file ["a\nb"]))
        ≠ (["a\nb"] : List String).toFinset :=
  ⟨by decide, by decide⟩

theorem splitLF_append_newline {l : List Char} (rest : List Char)
    (h : '\n' ∉ l) : splitLF (l ++ '\n' :: rest) = l :: splitLF rest := by
  induction l with
  | nil => simp [splitLF]
  | cons c cs ih =>
    have hc : c ≠ '\n' := fun hc => h (hc ▸ List.mem_cons_self c cs)
    have h' : '\n' ∉ cs := fun hm => h (List.mem_cons_of_mem c hm)
    simp only [List.cons_append, splitLF, if_neg hc, List.append_eq]
    rw [ih h']

theorem normalizeNL_eq_self {l : List Char} (h : '\r' ∉ l) :
    normalizeNL l = l := by
  induction l with
  | nil => rfl
  | cons c cs ih =>
    have hc : c ≠ '\r' := fun hc => h (hc ▸ List.mem_cons_self c cs)
    have h' : '\r' ∉ cs := fun hm => h (List.mem_cons_of_mem c hm)
    unfold normalizeNL
    rw [if_neg hc, ih h']

theorem mem_save_followers {ch : Char} :
    ∀ {fs : List String}, ch ∈ save_followers_to_file fs →
      ch = '\n' ∨ ∃ f ∈ fs, ch ∈ f.data := by
  intro fs
  induction fs with
  | nil => intro h; exact absurd h (List.not_mem_nil ch)
  | cons f fs ih =>
    intro h
    rw [save_followers_to_file] at h
    rcases List.mem_append.1 h with hf | hrest
    · exact Or.inr ⟨f, List.mem_cons_self f fs, hf⟩
    · rcases List.mem_cons.1 hrest with rfl | hrest'
      · exact Or.inl rfl
      · rcases ih hrest' with hnl | ⟨g, hg, hcg⟩
        · exact Or.inl hnl
        · exact Or.inr ⟨g, List.mem_cons_of_mem f hg, hcg⟩

theorem splitNL_save (fs : List String)
    (h : ∀ f ∈ fs, '\n' ∉ f.data ∧ '\r' ∉ f.data) :
    splitNL (save_followers_to_file fs)
      = fs.map (fun f => f.data) ++ [[]] := by
  have hr : '\r' ∉ save_followers_to_file fs := by
    intro hmem
    rcases mem_save_followers hmem with hnl | ⟨f, hf, hcf⟩
    · exact absurd hnl (by decide)
    · exact (h f hf).2 hcf
  unfold splitNL
  rw [normalizeNL_eq_self hr]
  clear hr
  induction fs with
  | nil => rfl
  | cons f fs ih =>
    rw [save_followers_to_file,
      splitLF_append_newline _ (h f (List.mem_cons_self f fs)).1,
      ih fun g hg => h g (List.mem_cons_of_mem f hg)]
    rfl

/-- Claim C9, amended: for identifiers that are non-empty, carry no leading
or trailing whitespace and contain no newline character (neither LF nor
CR — a lone CR is also a line ending under Python's universal newlines),
saving then loading yields exactly the set of the sequence's elements. -/
theorem spec_C9_roundtrip_amended (fs : List String)
    (h : ∀ f ∈ fs, f.data ≠ [] ∧ trim f.data = f.data
      ∧ '\n' ∉ f.data ∧ '\r' ∉ f.data) :
    load_followers_from_file (some (save_followers_to_file fs))
      = fs.toFinset := by
  simp only [load_followers_from_file]
  rw [splitNL_save fs fun f hf => ⟨(h f hf).2.2.1, (h f hf).2.2.2⟩,
    List.map_append, List.map_map]
  have h1 : fs.map (trim ∘ fun f => f.data) = fs.map (fun f => f.data) :=
    List.map_congr_left fun f hf => (h f hf).2.1
  rw [h1, List.filter_append]
  have h2 : (fs.map (fun f => f.data)).filter (fun l => decide (l ≠ []))
      = fs.map (fun f => f.data) := by
    rw [List.filter_eq_self]
    intro a ha
    rcases List.mem_map.1 ha with ⟨f, hf, rfl⟩
    exact decide_eq_true (h f hf).1
  have h3 : (([([] : List Char)]).map trim).filter (fun l => decide (l ≠ []))
      = [] := rfl
  rw [h2, h3, List.append_nil, List.map_map]
  have h4 : fs.map ((fun l => (⟨l⟩ : String)) ∘ fun f => f.data) = fs :=
    (List.map_congr_left fun f _ => rfl).trans (List.map_id fs)
  rw [h4]

/-- Witness for the amended C9 at a concrete well-formed follower list. -/
theorem spec_C9_witness :
    (∀ f ∈ (["alice", "bob"] : List String),
      f.data ≠ [] ∧ trim f.data = f.data ∧ '\n' ∉ f.data ∧ '\r' ∉ f.data)
    ∧ load_followers_from_file
        (some (save_followers_to_file ["alice", "bob"]))
      = (["alice", "bob"] : List String).toFinset :=
  ⟨by decide, spec_C9_roundtrip_amended ["alice", "bob"] (by decide)⟩

end TrackFollowers
